import Mathlib

/-
Verification of the crypto-arbitrage repository (arbitrage_bot.py, backtest.py)
against its natural-language specification.

Modelling conventions:
* Python floats are modelled as exact rationals (ℚ); the spec states its
  numeric contracts in real arithmetic.
* A price that may be `None` is `Option ℚ`; Python truthiness (`if price`)
  treats both `None` and `0` as false.
* Code that can raise (ZeroDivisionError from `profit / buy_cost`) is
  modelled in `Option`: `none` is a raised exception propagating out of the
  enclosing call, `some x` a normal return of `x`.
* Dictionaries keyed by exchange name are association lists when iteration
  order matters (`order_books`), and total functions when only lookup
  matters (fee tables, the simulated balance ledger, whose keys are fixed
  up front by `backtest`).
-/

set_option maxRecDepth 100000

namespace Crypto

/-- Top-of-book quote for one venue, as built by `fetch_order_book`
(arbitrage_bot.py lines 134-143) and by the backtest row loop
(backtest.py lines 199-203): either side may be absent. -/
structure Quote where
  bid : Option ℚ
  ask : Option ℚ
deriving DecidableEq, Repr

/-- An opportunity dict as built by `check_arbitrage_opportunities`
(arbitrage_bot.py lines 171-180, backtest.py lines 148-157).  The dict has
exactly these keys; in particular it never contains an `amount_symbol` key. -/
structure Opportunity where
  buy_exchange : String
  sell_exchange : String
  buy_price : ℚ
  sell_price : ℚ
  profit_percent : ℚ
  profit : ℚ
  amount : ℚ
  timestamp : Option String
deriving DecidableEq, Repr

/-- Forget an opportunity's detection timestamp (used to compare live
scanner outputs across different wall-clock instants). -/
def eraseTimestamp (o : Opportunity) : Opportunity :=
  { o with timestamp := none }

/-- Python truthiness of an optional price: `None` and `0` are falsy. -/
def truthy : Option ℚ → Bool
  | none => false
  | some x => x != 0

/-- `order_books[name]['ask']` (the name always comes from the dict's keys). -/
def obAsk (ob : List (String × Quote)) (name : String) : Option ℚ :=
  ((ob.lookup name).getD ⟨none, none⟩).ask

/-- `order_books[name]['bid']`. -/
def obBid (ob : List (String × Quote)) (name : String) : Option ℚ :=
  ((ob.lookup name).getD ⟨none, none⟩).bid

/-- The ordered pairs visited by the two nested `for` loops over
`exchange_names` (the same-name pairs are skipped inside the body). -/
def allPairs (names : List String) : List (String × String) :=
  (names.map (fun b => names.map (fun s => (b, s)))).flatten

namespace ArbBot

/-- The configuration parameters read by arbitrage_bot.py (lines 53-61)
that the scanner and the balance gate use. -/
structure Config where
  min_profit_percent : ℚ
  trade_amount : ℚ
  max_trade_amount : ℚ
  trade_currency : String
deriving DecidableEq, Repr

/-- `buy_cost = buy_price * amount * (1 + buy_fee)` (line 147). -/
def buyCost (buy_price amount buy_fee : ℚ) : ℚ :=
  buy_price * amount * (1 + buy_fee)

/-- `sell_revenue = sell_price * amount * (1 - sell_fee)` (line 148). -/
def sellRevenue (sell_price amount sell_fee : ℚ) : ℚ :=
  sell_price * amount * (1 - sell_fee)

/-- `calculate_profit` (arbitrage_bot.py lines 146-151).  Returns
`(profit_percent, profit)`; `none` models the ZeroDivisionError raised by
`(profit / buy_cost) * 100` when `buy_cost` is zero. -/
def calculate_profit (buy_price sell_price buy_fee sell_fee amount : ℚ) :
    Option (ℚ × ℚ) :=
  let buy_cost := buyCost buy_price amount buy_fee
  let sell_revenue := sellRevenue sell_price amount sell_fee
  let profit := sell_revenue - buy_cost
  if buy_cost = 0 then none
  else some ((profit / buy_cost) * 100, profit)

/-- One iteration of the nested pair loop of `check_arbitrage_opportunities`
(arbitrage_bot.py lines 157-181): skip same-name pairs; require both prices
truthy and `buy_price < sell_price`; size the trade as
`min(trade_amount, max_trade_amount)`; emit when
`profit_percent >= min_profit_percent`.  The outer `none` is a raised
exception (from `calculate_profit`), `some none` is "no opportunity emitted
for this pair", `some (some o)` is "opportunity `o` appended".
`ts` is the value of `datetime.utcnow().isoformat()` at emission time. -/
def evalPair (fees : String → ℚ) (cfg : Config) (ob : List (String × Quote))
    (ts : String) (b s : String) : Option (Option Opportunity) :=
  if b = s then some none
  else
    let bp := obAsk ob b
    let sp := obBid ob s
    if truthy bp && truthy sp && decide (bp.getD 0 < sp.getD 0) then
      let p := bp.getD 0
      let q := sp.getD 0
      let amount := min cfg.trade_amount cfg.max_trade_amount
      match calculate_profit p q (fees b) (fees s) amount with
      | none => none
      | some (pp, pr) =>
        if cfg.min_profit_percent ≤ pp then
          some (some ⟨b, s, p, q, pp, pr, amount, some ts⟩)
        else some none
    else some none

/-- The nested loop body applied over a pair list in order, appending the
emitted opportunities; an exception anywhere aborts the whole call. -/
def scanPairs (fees : String → ℚ) (cfg : Config) (ob : List (String × Quote))
    (ts : String) : List (String × String) → Option (List Opportunity)
  | [] => some []
  | (b, s) :: rest =>
    match evalPair fees cfg ob ts b s with
    | none => none
    | some o =>
      match scanPairs fees cfg ob ts rest with
      | none => none
      | some l => some (o.toList ++ l)

/-- `check_arbitrage_opportunities` (arbitrage_bot.py lines 154-182), the
live scanner: iterate over all ordered pairs of `order_books` keys. -/
def check_arbitrage_opportunities (fees : String → ℚ) (cfg : Config)
    (ob : List (String × Quote)) (ts : String) : Option (List Opportunity) :=
  scanPairs fees cfg ob ts (allPairs (ob.map Prod.fst))

/-- Outcome of one `fetch_order` poll inside `monitor_order`
(arbitrage_bot.py lines 255-265): the order's status field, or a raised
fetch error (`errored`), which is logged and polling continues. -/
inductive OrderStatus where
  | closed
  | canceled
  | opened
  | errored
deriving DecidableEq, Repr

/-- The value of `(datetime.utcnow() - start_time).seconds` at the top of
the k-th iteration of the `monitor_order` loop, under idealized timing
(each poll is instantaneous, each `asyncio.sleep(5)` takes exactly 5 s).
`timedelta.seconds` is the seconds-within-the-day component, so it wraps
modulo 86400 once a full day has elapsed. -/
def elapsedSeconds (k : Nat) : Nat := (5 * k) % 86400

/-- `monitor_order` (arbitrage_bot.py lines 251-269) run for at most `fuel`
loop iterations starting at iteration `k`: `some r` means the function
returned `r` within that many iterations, `none` means the loop was still
running when the fuel ran out.  `polls i` is the outcome of the i-th
`fetch_order` call. -/
def monitorFuel (polls : Nat → OrderStatus) (timeout : Nat) :
    Nat → Nat → Option Bool
  | 0, _ => none
  | fuel + 1, k =>
    if elapsedSeconds k < timeout then
      match polls k with
      | .closed => some true
      | .canceled => some false
      | _ => monitorFuel polls timeout fuel (k + 1)
    else some false

/-- Observable venue actions taken by `execute_trade`. -/
inductive ExecEvent where
  | placeBuy
  | placeSell
  | cancelBuy
  | monitorBuy
  | monitorSell
deriving DecidableEq, Repr

/-- The venue responses one run of `execute_trade` can observe: the outcome
of each placement call (`Except.error` = the call raised), of the
compensating cancel, and of the two order monitors. -/
structure ExecEnv where
  buyPlace : Except Unit String
  sellPlace : Except Unit String
  cancelBuy : Except Unit Unit
  monBuy : Bool
  monSell : Bool

/-- `execute_trade` (arbitrage_bot.py lines 201-248): place the buy leg
(failure returns False with nothing else done); place the sell leg (failure
attempts exactly one cancel of the buy order — its own outcome only logged —
then returns False); otherwise monitor both legs and return the conjunction.
The second component is the ordered trace of venue actions performed. -/
def execute_trade (env : ExecEnv) : Bool × List ExecEvent :=
  match env.buyPlace with
  | .error _ => (false, [.placeBuy])
  | .ok _ =>
    match env.sellPlace with
    | .error _ => (false, [.placeBuy, .placeSell, .cancelBuy])
    | .ok _ =>
      (env.monBuy && env.monSell,
        [.placeBuy, .placeSell, .monitorBuy, .monitorSell])

/-- `check_balance` (arbitrage_bot.py lines 185-198): `fetch` is the result
of `fetch_balance` (`none` = the call raised, caught and turned into False);
otherwise compare the free amount of `currency` (0 when absent, folded into
the total map) against `amount`. -/
def check_balance (fetch : Option (String → ℚ)) (currency : String)
    (amount : ℚ) : Bool :=
  match fetch with
  | none => false
  | some free => amount ≤ free currency

/-- Observable actions of the per-opportunity fragment of `main`. -/
inductive MainEvent where
  | balanceCheck (venue currency : String) (amount : ℚ)
  | executeTrade (buy sell : String)
deriving DecidableEq, Repr

/-- The sell-leg currency expression in `main` (arbitrage_bot.py line 304):
`opp['amount_symbol'] if 'amount_symbol' in opp else trade_currency`.
The opportunity dicts built by `check_arbitrage_opportunities`
(lines 171-180) contain no `amount_symbol` key, so this is always `none`. -/
def oppAmountSymbol (_o : Opportunity) : Option String := none

/-- The per-opportunity balance gate of `main` (arbitrage_bot.py lines
293-322): check the buy venue's `trade_currency` balance against the
fee-inclusive cost and the sell venue's `amount_symbol`-or-`trade_currency`
balance against the trade size; call `execute_trade` only if both pass.
Returns whether `execute_trade` was invoked, with the event trace. -/
def processOpportunity (fetch : String → Option (String → ℚ))
    (fees : String → ℚ) (cfg : Config) (o : Opportunity) :
    Bool × List MainEvent :=
  let buyCurrency := cfg.trade_currency
  let buyNeeded := o.buy_price * o.amount * (1 + fees o.buy_exchange)
  let sellCurrency := (oppAmountSymbol o).getD cfg.trade_currency
  let buyOk := check_balance (fetch o.buy_exchange) buyCurrency buyNeeded
  let sellOk := check_balance (fetch o.sell_exchange) sellCurrency o.amount
  let checks := [MainEvent.balanceCheck o.buy_exchange buyCurrency buyNeeded,
                 MainEvent.balanceCheck o.sell_exchange sellCurrency o.amount]
  if buyOk && sellOk then
    (true, checks ++ [MainEvent.executeTrade o.buy_exchange o.sell_exchange])
  else
    (false, checks)

end ArbBot

namespace Backtest

/-- The configuration parameters read by backtest.py (lines 50-57) that the
replay scanner uses. -/
structure Config where
  min_profit_percent : ℚ
  trade_amount : ℚ
  max_trade_amount : ℚ
deriving DecidableEq, Repr

/-- A venue's simulated balance dict `{'USD': _, 'BTC': _}`
(backtest.py line 194). -/
structure VenueBal where
  usd : ℚ
  btc : ℚ
deriving DecidableEq, Repr

/-- The simulated ledger, a total map from venue name to its balances
(`backtest` initializes every venue it replays, line 194). -/
def Ledger : Type := String → VenueBal

/-- Sum of all balances of the venues in `venues` (USD and BTC). -/
def Ledger.total (venues : List String) (bal : Ledger) : ℚ :=
  (venues.map (fun v => (bal v).usd + (bal v).btc)).sum

/-- `calculate_profit` (backtest.py lines 112-117), textually identical to
the live variant; `none` models the ZeroDivisionError when `buy_cost` is
zero. -/
def calculate_profit (buy_price sell_price buy_fee sell_fee amount : ℚ) :
    Option (ℚ × ℚ) :=
  let buy_cost := buy_price * amount * (1 + buy_fee)
  let sell_revenue := sell_price * amount * (1 - sell_fee)
  let profit := sell_revenue - buy_cost
  if buy_cost = 0 then none
  else some ((profit / buy_cost) * 100, profit)

/-- One iteration of the nested pair loop of the replay
`check_arbitrage_opportunities` (backtest.py lines 123-158): after the same
price guard as the live variant, cap the amount by the buy venue's USD
balance divided by the fee-adjusted unit cost, and only evaluate profit
when `max_amount > 0`.  The outer `none` is a raised ZeroDivisionError
(division by `buy_price * (1 + buy_fee)` when that is zero, or inside
`calculate_profit`). -/
def evalPair (fees : String → ℚ) (cfg : Config) (ob : List (String × Quote))
    (bal : Ledger) (b s : String) : Option (Option Opportunity) :=
  if b = s then some none
  else
    let bp := obAsk ob b
    let sp := obBid ob s
    if truthy bp && truthy sp && decide (bp.getD 0 < sp.getD 0) then
      let p := bp.getD 0
      let q := sp.getD 0
      let bf := fees b
      let sf := fees s
      if p * (1 + bf) = 0 then none
      else
        let max_amount_usd := (bal b).usd / (p * (1 + bf))
        let max_amount := min cfg.trade_amount
          (min cfg.max_trade_amount max_amount_usd)
        if 0 < max_amount then
          match calculate_profit p q bf sf max_amount with
          | none => none
          | some (pp, pr) =>
            if cfg.min_profit_percent ≤ pp then
              some (some ⟨b, s, p, q, pp, pr, max_amount, none⟩)
            else some none
        else some none
    else some none

/-- The replay pair loop applied over a pair list in order. -/
def scanPairs (fees : String → ℚ) (cfg : Config) (ob : List (String × Quote))
    (bal : Ledger) : List (String × String) → Option (List Opportunity)
  | [] => some []
  | (b, s) :: rest =>
    match evalPair fees cfg ob bal b s with
    | none => none
    | some o =>
      match scanPairs fees cfg ob bal rest with
      | none => none
      | some l => some (o.toList ++ l)

/-- `check_arbitrage_opportunities` (backtest.py lines 120-159), the replay
scanner. -/
def check_arbitrage_opportunities (fees : String → ℚ) (cfg : Config)
    (ob : List (String × Quote)) (bal : Ledger) : Option (List Opportunity) :=
  scanPairs fees cfg ob bal (allPairs (ob.map Prod.fst))

/-- `balances[x]['USD'] -= c` on a ledger. -/
def Ledger.subUsd (bal : Ledger) (x : String) (c : ℚ) : Ledger :=
  fun v => if v = x then ⟨(bal v).usd - c, (bal v).btc⟩ else bal v

/-- `balances[x]['USD'] += c` on a ledger. -/
def Ledger.addUsd (bal : Ledger) (x : String) (c : ℚ) : Ledger :=
  fun v => if v = x then ⟨(bal v).usd + c, (bal v).btc⟩ else bal v

/-- `simulate_trade` (backtest.py lines 162-188): recompute cost and
revenue from the opportunity's fields; if the buy venue's USD balance
covers the cost, debit it and credit the sell venue's USD with the
revenue (BTC balances are deliberately left untouched, line 180) and
return True; otherwise leave the ledger unchanged and return False. -/
def simulate_trade (bal : Ledger) (o : Opportunity) (fees : String → ℚ) :
    Ledger × Bool :=
  let cost := o.amount * o.buy_price * (1 + fees o.buy_exchange)
  let revenue := o.amount * o.sell_price * (1 - fees o.sell_exchange)
  if cost ≤ (bal o.buy_exchange).usd then
    (Ledger.addUsd (Ledger.subUsd bal o.buy_exchange cost)
      o.sell_exchange revenue, true)
  else (bal, false)

/-- The inner trade loop of `backtest` (backtest.py lines 210-217): stamp
each opportunity with the row timestamp, apply it to the ledger, and append
it to the trade log when the simulated trade succeeded. -/
def applyOpportunities (fees : String → ℚ) (ts : String) :
    List Opportunity → Ledger → List Opportunity → Ledger × List Opportunity
  | [], bal, log => (bal, log)
  | o :: rest, bal, log =>
    applyOpportunities fees ts rest
      (simulate_trade bal { o with timestamp := some ts } fees).1
      (if (simulate_trade bal { o with timestamp := some ts } fees).2 then
        log ++ [{ o with timestamp := some ts }]
      else log)

/-- The timestamp loop of `backtest` (backtest.py lines 198-217): build a
snapshot for every venue from the row, scan it against the current ledger,
and apply the resulting opportunities in order. -/
def backtestRun (fees : String → ℚ) (cfg : Config) (venues : List String) :
    List (String × (String → Quote)) → Ledger → List Opportunity →
    Option (Ledger × List Opportunity)
  | [], bal, log => some (bal, log)
  | (ts, row) :: rest, bal, log =>
    match check_arbitrage_opportunities fees cfg
        (venues.map (fun v => (v, row v))) bal with
    | none => none
    | some opps =>
      backtestRun fees cfg venues rest
        (applyOpportunities fees ts opps bal log).1
        (applyOpportunities fees ts opps bal log).2

/-- `backtest` (backtest.py lines 191-218): start every venue at
`{'USD': initial_balance, 'BTC': 0}` with an empty trade log and replay the
synchronized rows in order. -/
def backtest (fees : String → ℚ) (cfg : Config) (venues : List String)
    (initial : ℚ) (rows : List (String × (String → Quote))) :
    Option (Ledger × List Opportunity) :=
  backtestRun fees cfg venues rows (fun _ => ⟨initial, 0⟩) []

/-- Modelled from the spec: "total fees paid" on one applied trade — the
fee fraction of each leg's notional, `amount * buy_price * buy_fee`
plus `amount * sell_price * sell_fee`.  No function of the repository
computes this quantity; it exists only in the spec's conservation law. -/
def specFeesPaid (fees : String → ℚ) (o : Opportunity) : ℚ :=
  o.amount * o.buy_price * fees o.buy_exchange +
    o.amount * o.sell_price * fees o.sell_exchange

/-- The invariant the conservation law needs of each scanned opportunity. -/
def GoodOpp (venues : List String) (fees : String → ℚ) (o : Opportunity) :
    Prop :=
  o.buy_exchange ∈ venues ∧ o.sell_exchange ∈ venues ∧
    o.profit = o.sell_price * o.amount * (1 - fees o.sell_exchange) -
      o.buy_price * o.amount * (1 + fees o.buy_exchange)

end Backtest

/-! Concrete fixtures used in counterexamples and witness instantiations. -/

/-- A flat taker-fee table of 0.001 for every venue (the spec's end-to-end
example). -/
def flatFees : String → ℚ := fun _ => 1/1000

/-- Snapshot of the spec's end-to-end example: buy venue a with ask 100,
sell venue b with bid 101. -/
def c2ob : List (String × Quote) :=
  [("a", ⟨none, some 100⟩), ("b", ⟨some 101, none⟩)]

/-- The opportunity the live scanner emits on `c2ob` with fees 0.001,
`min_profit_percent = 0.5` and unit trade size, stamped at clock "T". -/
def c2opp : Opportunity :=
  ⟨"a", "b", 100, 101, 799/1001, 799/1000, 1, some "T"⟩

/-- A balance oracle where every venue holds 1000 USD and zero of every
other currency (in particular zero BTC). -/
def c6fetch : String → Option (String → ℚ) :=
  fun _ => some (fun c => if c = "USD" then 1000 else 0)

/-- One synchronized replay row: venue a bid 99 / ask 100, venue b
bid 101 / ask 102. -/
def c7rows : List (String × (String → Quote)) :=
  [("t1", fun v => if v = "a" then ⟨some 99, some 100⟩ else ⟨some 101, some 102⟩)]

def c7cfg : Backtest.Config := ⟨1/2, 1, 1⟩

/-- A two-venue replay of `c7rows` starting from 1000 USD per venue. -/
def c7result : Option (Backtest.Ledger × List Opportunity) :=
  Backtest.backtest flatFees c7cfg ["a", "b"] 1000 c7rows

/-- Total simulated balance over both venues after the replay. -/
def c7finalTotal : Option ℚ :=
  c7result.map (fun r => Backtest.Ledger.total ["a", "b"] r.1)

/-- Sum of the `profit` fields over the replay's applied trades. -/
def c7profitSum : Option ℚ :=
  c7result.map (fun r => (r.2.map Opportunity.profit).sum)

/-- Total fees paid (in the spec's sense) over the replay's applied trades. -/
def c7feesTotal : Option ℚ :=
  c7result.map (fun r => (r.2.map (Backtest.specFeesPaid flatFees)).sum)

/-- A zero-fee table, for a replay whose only balance movement is the
spread itself. -/
def zeroFees : String → ℚ := fun _ => 0

/-- The `c7rows` replay again, but with zero fees everywhere. -/
def c7zresult : Option (Backtest.Ledger × List Opportunity) :=
  Backtest.backtest zeroFees c7cfg ["a", "b"] 1000 c7rows

/-- Total simulated balance over both venues after the zero-fee replay. -/
def c7zFinalTotal : Option ℚ :=
  c7zresult.map (fun r => Backtest.Ledger.total ["a", "b"] r.1)

/-- Total fees paid (in the spec's sense) during the zero-fee replay. -/
def c7zFeesTotal : Option ℚ :=
  c7zresult.map (fun r => (r.2.map (Backtest.specFeesPaid zeroFees)).sum)

/-- A concrete ledger with distinct USD and BTC balances per venue. -/
def c10bal : Backtest.Ledger :=
  fun v => if v = "a" then ⟨1000, 5⟩ else ⟨500, 7⟩

def c10opp : Opportunity :=
  ⟨"a", "b", 100, 101, 799/1001, 799/1000, 1, none⟩

/-! Structural lemmas about the two scanners, shared by several claims. -/

lemma mem_allPairs {names : List String} {b s : String}
    (h : (b, s) ∈ allPairs names) : b ∈ names ∧ s ∈ names := by
  simp only [allPairs, List.mem_flatten, List.mem_map] at h
  obtain ⟨_, ⟨b', hb', rfl⟩, hs⟩ := h
  obtain ⟨s', hs', heq⟩ := List.mem_map.mp hs
  obtain ⟨rfl, rfl⟩ := Prod.mk.injEq .. ▸ heq
  exact ⟨hb', hs'⟩

namespace ArbBot

lemma calculate_profit_eq_some_live {bp sp bf sf a pp pr : ℚ}
    (h : calculate_profit bp sp bf sf a = some (pp, pr)) :
    buyCost bp a bf ≠ 0 ∧ pr = sellRevenue sp a sf - buyCost bp a bf ∧
      pp = (pr / buyCost bp a bf) * 100 := by
  simp only [calculate_profit] at h
  split at h
  · exact absurd h (by simp)
  · next hne =>
    obtain ⟨rfl, rfl⟩ := Prod.mk.injEq .. ▸ Option.some.injEq .. ▸ h
    exact ⟨hne, rfl, rfl⟩

lemma evalPair_eq_some_live {fees : String → ℚ} {cfg : Config}
    {ob : List (String × Quote)} {ts b s : String} {o : Opportunity}
    (h : evalPair fees cfg ob ts b s = some (some o)) :
    o.buy_exchange = b ∧ o.sell_exchange = s ∧
      o.amount = min cfg.trade_amount cfg.max_trade_amount ∧
      o.buy_price < o.sell_price ∧
      cfg.min_profit_percent ≤ o.profit_percent ∧
      o.profit = sellRevenue o.sell_price o.amount (fees s) -
        buyCost o.buy_price o.amount (fees b) := by
  simp only [evalPair] at h
  split at h
  · exact absurd h (by simp)
  · split at h
    · next hcond =>
      simp only [Bool.and_eq_true, decide_eq_true_eq] at hcond
      split at h
      · exact absurd h (by simp)
      · next pp pr hcalc =>
        split at h
        · next hmin =>
          obtain rfl := (Option.some.injEq .. ▸ Option.some.injEq .. ▸ h).symm
          obtain ⟨-, hpr, -⟩ := calculate_profit_eq_some_live hcalc
          exact ⟨rfl, rfl, rfl, hcond.2, hmin, hpr⟩
        · exact absurd h (by simp)
    · exact absurd h (by simp)

lemma scanPairs_mem_live {fees : String → ℚ} {cfg : Config}
    {ob : List (String × Quote)} {ts : String} {o : Opportunity} :
    ∀ {pairs : List (String × String)} {l : List Opportunity},
      scanPairs fees cfg ob ts pairs = some l → o ∈ l →
      ∃ p ∈ pairs, evalPair fees cfg ob ts p.1 p.2 = some (some o)
  | [], l, h, hm => by
    obtain rfl := (Option.some.injEq .. ▸ h).symm
    exact absurd hm (List.not_mem_nil o)
  | (b, s) :: rest, l, h, hm => by
    rw [scanPairs] at h
    split at h
    · exact absurd h (by simp)
    · next oo heval =>
      split at h
      · exact absurd h (by simp)
      · next l' hrest =>
        obtain rfl := (Option.some.injEq .. ▸ h).symm
        rcases List.mem_append.mp hm with hm1 | hm2
        · cases oo with
          | none => exact absurd hm1 (List.not_mem_nil o)
          | some o' =>
            simp only [Option.toList_some, List.mem_singleton] at hm1
            exact ⟨(b, s), List.mem_cons_self .., hm1 ▸ heval⟩
        · obtain ⟨p, hp, hpe⟩ := scanPairs_mem_live hrest hm2
          exact ⟨p, List.mem_cons_of_mem _ hp, hpe⟩

/-- The wall-clock reading entering `datetime.utcnow().isoformat()` affects
an emitted opportunity only through its `timestamp` field. -/
lemma evalPair_erase {fees : String → ℚ} {cfg : Config}
    {ob : List (String × Quote)} {b s : String} (t₁ t₂ : String) :
    (evalPair fees cfg ob t₁ b s).map (Option.map eraseTimestamp) =
      (evalPair fees cfg ob t₂ b s).map (Option.map eraseTimestamp) := by
  by_cases h1 : b = s
  · simp [evalPair, h1]
  · simp only [evalPair, if_neg h1]
    by_cases h2 : (truthy (obAsk ob b) && truthy (obBid ob s) &&
        decide ((obAsk ob b).getD 0 < (obBid ob s).getD 0)) = true
    · rw [if_pos h2, if_pos h2]
      rcases hc : calculate_profit ((obAsk ob b).getD 0) ((obBid ob s).getD 0)
          (fees b) (fees s) (min cfg.trade_amount cfg.max_trade_amount)
        with _ | ⟨pp, pr⟩
      · rfl
      · by_cases h3 : cfg.min_profit_percent ≤ pp
        · simp [if_pos h3, eraseTimestamp]
        · simp [if_neg h3]
    · rw [if_neg h2, if_neg h2]

lemma scanPairs_erase {fees : String → ℚ} {cfg : Config}
    {ob : List (String × Quote)} (t₁ t₂ : String) :
    ∀ pairs : List (String × String),
      (scanPairs fees cfg ob t₁ pairs).map (List.map eraseTimestamp) =
        (scanPairs fees cfg ob t₂ pairs).map (List.map eraseTimestamp)
  | [] => rfl
  | (b, s) :: rest => by
    have he := @evalPair_erase fees cfg ob b s t₁ t₂
    have hr := @scanPairs_erase fees cfg ob t₁ t₂ rest
    rw [scanPairs, scanPairs]
    rcases h₁ : evalPair fees cfg ob t₁ b s with _ | o₁ <;>
      rcases h₂ : evalPair fees cfg ob t₂ b s with _ | o₂ <;>
        rw [h₁, h₂] at he <;> simp at he
    all_goals dsimp only
    all_goals
      rcases hs₁ : scanPairs fees cfg ob t₁ rest with _ | l₁ <;>
        rcases hs₂ : scanPairs fees cfg ob t₂ rest with _ | l₂ <;>
          rw [hs₁, hs₂] at hr <;> simp at hr
    all_goals
      simp only [Option.map_some', Option.some.injEq, List.map_append]
      rw [hr]
      cases o₁ <;> cases o₂ <;> simp_all [eraseTimestamp]

/-- With an all-`open` status stream and `timeout = 86400`, the
`monitor_order` loop is still running after any number of iterations: the
guard `(utcnow - start).seconds < timeout` can never become false because
`timedelta.seconds` wraps modulo 86400. -/
lemma monitorFuel_allOpen_day :
    ∀ (fuel k : Nat),
      monitorFuel (fun _ => OrderStatus.opened) 86400 fuel k = none
  | 0, _ => rfl
  | fuel + 1, k => by
    have hlt : elapsedSeconds k < 86400 := Nat.mod_lt _ (by norm_num)
    rw [monitorFuel, if_pos hlt]
    exact monitorFuel_allOpen_day fuel (k + 1)

/-- Every opportunity returned by the live scanner has a positive spread, a
profit percentage at or above the configured minimum, and carries the
configured `min(trade_amount, max_trade_amount)` as its amount. -/
lemma check_mem_sound_live {fees : String → ℚ} {cfg : Config}
    {ob : List (String × Quote)} {ts : String} {l : List Opportunity}
    {o : Opportunity}
    (h : check_arbitrage_opportunities fees cfg ob ts = some l)
    (hm : o ∈ l) :
    o.buy_price < o.sell_price ∧
      cfg.min_profit_percent ≤ o.profit_percent ∧
      o.amount = min cfg.trade_amount cfg.max_trade_amount := by
  obtain ⟨⟨b, s⟩, -, hpe⟩ := scanPairs_mem_live h hm
  obtain ⟨-, -, hamt, hlt, hmin, -⟩ := evalPair_eq_some_live hpe
  exact ⟨hlt, hmin, hamt⟩

end ArbBot

namespace Backtest

lemma calculate_profit_eq_some_replay {bp sp bf sf a pp pr : ℚ}
    (h : calculate_profit bp sp bf sf a = some (pp, pr)) :
    bp * a * (1 + bf) ≠ 0 ∧ pr = sp * a * (1 - sf) - bp * a * (1 + bf) ∧
      pp = (pr / (bp * a * (1 + bf))) * 100 := by
  simp only [calculate_profit] at h
  split at h
  · exact absurd h (by simp)
  · next hne =>
    obtain ⟨rfl, rfl⟩ := Prod.mk.injEq .. ▸ Option.some.injEq .. ▸ h
    exact ⟨hne, rfl, rfl⟩

lemma evalPair_eq_some_replay {fees : String → ℚ} {cfg : Config}
    {ob : List (String × Quote)} {bal : Ledger} {b s : String}
    {o : Opportunity}
    (h : evalPair fees cfg ob bal b s = some (some o)) :
    o.buy_exchange = b ∧ o.sell_exchange = s ∧ b ≠ s ∧ 0 < o.amount ∧
      o.buy_price < o.sell_price ∧
      cfg.min_profit_percent ≤ o.profit_percent ∧
      o.profit = o.sell_price * o.amount * (1 - fees s) -
        o.buy_price * o.amount * (1 + fees b) := by
  simp only [evalPair] at h
  split at h
  · exact absurd h (by simp)
  · next hbs =>
    split at h
    · next hcond =>
      simp only [Bool.and_eq_true, decide_eq_true_eq] at hcond
      split at h
      · exact absurd h (by simp)
      · split at h
        · next hpos =>
          split at h
          · exact absurd h (by simp)
          · next pp pr hcalc =>
            split at h
            · next hmin =>
              obtain rfl :=
                (Option.some.injEq .. ▸ Option.some.injEq .. ▸ h).symm
              obtain ⟨-, hpr, -⟩ := calculate_profit_eq_some_replay hcalc
              exact ⟨rfl, rfl, hbs, hpos, hcond.2, hmin, hpr⟩
            · exact absurd h (by simp)
        · exact absurd h (by simp)
    · exact absurd h (by simp)

lemma scanPairs_mem_replay {fees : String → ℚ} {cfg : Config}
    {ob : List (String × Quote)} {bal : Ledger} {o : Opportunity} :
    ∀ {pairs : List (String × String)} {l : List Opportunity},
      scanPairs fees cfg ob bal pairs = some l → o ∈ l →
      ∃ p ∈ pairs, evalPair fees cfg ob bal p.1 p.2 = some (some o)
  | [], l, h, hm => by
    obtain rfl := (Option.some.injEq .. ▸ h).symm
    exact absurd hm (List.not_mem_nil o)
  | (b, s) :: rest, l, h, hm => by
    rw [scanPairs] at h
    split at h
    · exact absurd h (by simp)
    · next oo heval =>
      split at h
      · exact absurd h (by simp)
      · next l' hrest =>
        obtain rfl := (Option.some.injEq .. ▸ h).symm
        rcases List.mem_append.mp hm with hm1 | hm2
        · cases oo with
          | none => exact absurd hm1 (List.not_mem_nil o)
          | some o' =>
            simp only [Option.toList_some, List.mem_singleton] at hm1
            exact ⟨(b, s), List.mem_cons_self .., hm1 ▸ heval⟩
        · obtain ⟨p, hp, hpe⟩ := scanPairs_mem_replay hrest hm2
          exact ⟨p, List.mem_cons_of_mem _ hp, hpe⟩

/-- Every opportunity returned by the replay scanner names two distinct
venues drawn from the snapshot's keys, has a positive amount, a positive
spread, a profit percentage at or above the configured minimum, and its
`profit` field is exactly the fee-adjusted revenue minus cost recomputed
from its own fields. -/
lemma check_mem_sound_replay {fees : String → ℚ} {cfg : Config}
    {ob : List (String × Quote)} {bal : Ledger} {l : List Opportunity}
    {o : Opportunity}
    (h : check_arbitrage_opportunities fees cfg ob bal = some l)
    (hm : o ∈ l) :
    o.buy_exchange ∈ ob.map Prod.fst ∧ o.sell_exchange ∈ ob.map Prod.fst ∧
      o.buy_exchange ≠ o.sell_exchange ∧ 0 < o.amount ∧
      o.buy_price < o.sell_price ∧
      cfg.min_profit_percent ≤ o.profit_percent ∧
      o.profit = o.sell_price * o.amount * (1 - fees o.sell_exchange) -
        o.buy_price * o.amount * (1 + fees o.buy_exchange) := by
  obtain ⟨⟨b, s⟩, hp, hpe⟩ := scanPairs_mem_replay h hm
  obtain ⟨hb, hs, hbs, hpos, hlt, hmin, hpr⟩ := evalPair_eq_some_replay hpe
  obtain ⟨hbm, hsm⟩ := mem_allPairs hp
  subst hb hs
  exact ⟨hbm, hsm, hbs, hpos, hlt, hmin, hpr⟩

/-! Ledger accounting lemmas for the replay conservation law. -/

lemma sum_map_update {f g : String → ℚ} {x : String} {d : ℚ}
    (hgx : g x = f x + d) (hgv : ∀ v, v ≠ x → g v = f v) :
    ∀ {venues : List String}, x ∈ venues → venues.Nodup →
      (venues.map g).sum = (venues.map f).sum + d
  | [], hx, _ => absurd hx (List.not_mem_nil x)
  | v :: vs, hx, hnd => by
    rw [List.map_cons, List.map_cons, List.sum_cons, List.sum_cons]
    rcases List.mem_cons.mp hx with rfl | hx'
    · have hnotin : x ∉ vs := (List.nodup_cons.mp hnd).1
      have hmap : vs.map g = vs.map f :=
        List.map_congr_left fun w hw => hgv w fun he => hnotin (he ▸ hw)
      rw [hmap, hgx]; ring
    · by_cases hvx : v = x
      · exact absurd hx' (hvx ▸ (List.nodup_cons.mp hnd).1)
      · rw [hgv v hvx,
          sum_map_update hgx hgv hx' (List.nodup_cons.mp hnd).2]
        ring

lemma Ledger.total_addUsd {venues : List String} {bal : Ledger} {x : String}
    {c : ℚ} (hx : x ∈ venues) (hnd : venues.Nodup) :
    Ledger.total venues (Ledger.addUsd bal x c) = Ledger.total venues bal + c := by
  unfold Ledger.total
  refine sum_map_update ?_ (fun v hv => ?_) hx hnd
  · simp only [Ledger.addUsd, if_true, eq_self_iff_true]
    ring
  · simp only [Ledger.addUsd]
    rw [if_neg hv]

lemma Ledger.total_subUsd {venues : List String} {bal : Ledger} {x : String}
    {c : ℚ} (hx : x ∈ venues) (hnd : venues.Nodup) :
    Ledger.total venues (Ledger.subUsd bal x c) = Ledger.total venues bal - c := by
  unfold Ledger.total
  rw [sub_eq_add_neg]
  refine sum_map_update ?_ (fun v hv => ?_) hx hnd
  · simp only [Ledger.subUsd, if_true, eq_self_iff_true]
    ring
  · simp only [Ledger.subUsd]
    rw [if_neg hv]

/-- A skipped trade (insufficient USD on the buy venue) returns the ledger
unchanged together with `false`. -/
lemma simulate_trade_of_skip {bal : Ledger} {o : Opportunity}
    {fees : String → ℚ} (h : (simulate_trade bal o fees).2 = false) :
    simulate_trade bal o fees = (bal, false) := by
  revert h
  simp only [simulate_trade]
  split
  · intro h
    exact absurd h (by simp)
  · intro _
    rfl

/-- An executed trade changes the venues' total balance by exactly the
fee-adjusted revenue minus the fee-adjusted cost. -/
lemma simulate_trade_total_of_exec {venues : List String} {bal : Ledger}
    {o : Opportunity} {fees : String → ℚ} (hnd : venues.Nodup)
    (hb : o.buy_exchange ∈ venues) (hs : o.sell_exchange ∈ venues)
    (h : (simulate_trade bal o fees).2 = true) :
    Ledger.total venues (simulate_trade bal o fees).1 =
      Ledger.total venues bal +
        (o.amount * o.sell_price * (1 - fees o.sell_exchange) -
          o.amount * o.buy_price * (1 + fees o.buy_exchange)) := by
  revert h
  simp only [simulate_trade]
  split
  · intro _
    dsimp only
    rw [Ledger.total_addUsd hs hnd, Ledger.total_subUsd hb hnd]
    ring
  · intro h
    exact absurd h (by simp)

lemma timestamped_goodOpp {venues : List String} {fees : String → ℚ}
    {o : Opportunity} {ts : String} (hg : GoodOpp venues fees o) :
    GoodOpp venues fees { o with timestamp := some ts } := hg

lemma applyOpportunities_total {venues : List String} {fees : String → ℚ}
    {ts : String} (hnd : venues.Nodup) :
    ∀ {opps : List Opportunity} {bal : Ledger} {log : List Opportunity},
      (∀ o ∈ opps, GoodOpp venues fees o) →
      Ledger.total venues (applyOpportunities fees ts opps bal log).1 -
          (((applyOpportunities fees ts opps bal log).2).map
            Opportunity.profit).sum =
        Ledger.total venues bal - (log.map Opportunity.profit).sum
  | [], bal, log, _ => rfl
  | o :: rest, bal, log, hgood => by
    rw [applyOpportunities]
    have hg' : GoodOpp venues fees { o with timestamp := some ts } :=
      timestamped_goodOpp (hgood o (List.mem_cons_self ..))
    have hrest : ∀ x ∈ rest, GoodOpp venues fees x :=
      fun x hx => hgood x (List.mem_cons_of_mem _ hx)
    rw [applyOpportunities_total hnd hrest]
    rcases hb : (simulate_trade bal { o with timestamp := some ts } fees).2 with _ | _
    · rw [simulate_trade_of_skip hb]
      simp
    · rw [simulate_trade_total_of_exec hnd hg'.1 hg'.2.1 hb, if_pos rfl,
        List.map_append, List.sum_append]
      simp only [List.map_cons, List.map_nil, List.sum_cons, List.sum_nil]
      have hpr : o.profit = o.sell_price * o.amount *
          (1 - fees o.sell_exchange) -
          o.buy_price * o.amount * (1 + fees o.buy_exchange) := hg'.2.2
      rw [hpr]
      ring

lemma backtestRun_total {fees : String → ℚ} {cfg : Config}
    {venues : List String} (hnd : venues.Nodup) :
    ∀ {rows : List (String × (String → Quote))} {bal : Ledger}
      {log : List Opportunity} {res : Ledger × List Opportunity},
      backtestRun fees cfg venues rows bal log = some res →
      Ledger.total venues res.1 - (res.2.map Opportunity.profit).sum =
        Ledger.total venues bal - (log.map Opportunity.profit).sum
  | [], bal, log, res, h => by
    obtain rfl := (Option.some.injEq .. ▸ h).symm
    rfl
  | (ts, row) :: rest, bal, log, res, h => by
    rw [backtestRun] at h
    split at h
    · exact absurd h (by simp)
    · next opps hscan =>
      have hgood : ∀ o ∈ opps, GoodOpp venues fees o := by
        intro o hm
        obtain ⟨hb, hs, -, -, -, -, hpr⟩ := check_mem_sound_replay hscan hm
        rw [List.map_map] at hb hs
        simp only [Function.comp_def, List.map_id'] at hb hs
        exact ⟨hb, hs, hpr⟩
      rw [backtestRun_total hnd h, applyOpportunities_total hnd hgood]

/-- The total of the initial ledger over `venues` is `|venues| * initial`. -/
lemma Ledger.total_const (venues : List String) (initial : ℚ) :
    Ledger.total venues (fun _ => ⟨initial, 0⟩) =
      (venues.length : ℚ) * initial := by
  induction venues with
  | nil => simp [Ledger.total]
  | cons v vs ih =>
    simp only [Ledger.total, List.map_cons, List.sum_cons, List.length_cons]
      at ih ⊢
    rw [ih]
    push_cast
    ring

end Backtest

/-! The claims. -/

/-- C1 (amended): every opportunity emitted by either scanner satisfies
`buy_price < sell_price` and `profit_percent ≥ min_profit_percent`; the
replay variant moreover guarantees `amount > 0` unconditionally, while the
live variant copies `min(trade_amount, max_trade_amount)` into the emitted
amount unchecked, so `amount > 0` holds exactly when that configured
minimum is positive. -/
theorem C1_scanner_invariants (fees : String → ℚ) (acfg : ArbBot.Config)
    (bcfg : Backtest.Config) (ob : List (String × Quote))
    (bal : Backtest.Ledger) (ts : String) (l r : List Opportunity)
    (o : Opportunity) :
    (ArbBot.check_arbitrage_opportunities fees acfg ob ts = some l → o ∈ l →
      o.buy_price < o.sell_price ∧
      acfg.min_profit_percent ≤ o.profit_percent ∧
      (0 < min acfg.trade_amount acfg.max_trade_amount → 0 < o.amount)) ∧
    (Backtest.check_arbitrage_opportunities fees bcfg ob bal = some r →
      o ∈ r →
      o.buy_price < o.sell_price ∧
      bcfg.min_profit_percent ≤ o.profit_percent ∧ 0 < o.amount) := by
  constructor
  · intro h hm
    obtain ⟨hlt, hmin, hamt⟩ := ArbBot.check_mem_sound_live h hm
    exact ⟨hlt, hmin, fun hpos => hamt ▸ hpos⟩
  · intro h hm
    obtain ⟨-, -, -, hpos, hlt, hmin, -⟩ := Backtest.check_mem_sound_replay h hm
    exact ⟨hlt, hmin, hpos⟩

/-- Witness for C1 at the end-to-end example snapshot. -/
theorem C1_scanner_invariants_witness :
    (100 : ℚ) < 101 ∧ (1/2 : ℚ) ≤ 799/1001 ∧
      (0 < min (1 : ℚ) 1 → (0 : ℚ) < 1) :=
  (C1_scanner_invariants flatFees ⟨1/2, 1, 1, "USD"⟩ ⟨1/2, 1, 1⟩
      c2ob (fun _ => ⟨1000, 0⟩) "T" [c2opp] [] c2opp).1
    (by with_unfolding_all decide) (List.mem_singleton.mpr rfl)

/-- C1 counterexample: with `trade_amount = -1` the live scanner emits an
opportunity whose amount is `-1 ≤ 0`, refuting the unconditional
`amount > 0` claim. -/
theorem C1_counterexample :
    ArbBot.check_arbitrage_opportunities flatFees ⟨1/2, -1, 1, "USD"⟩
        c2ob "T" =
      some [⟨"a", "b", 100, 101, 799/1001, -(799/1000), -1, some "T"⟩] ∧
    (⟨"a", "b", 100, 101, 799/1001, -(799/1000), -1, some "T"⟩ :
      Opportunity).amount ≤ 0 := by
  with_unfolding_all decide

/-- C2: on buy ask 100, sell bid 101, fees 0.001 and amount 1 the profit
formula yields `buy_cost = 100.1`, `sell_revenue = 100.899`,
`profit = 0.799` and `profit_percent = 799/1001 ∈ (0.798, 0.7985)`, and
with `min_profit_percent = 0.5` the live scanner emits exactly this one
opportunity for the pair. -/
theorem C2_example :
    ArbBot.buyCost 100 1 (1/1000) = 1001/10 ∧
    ArbBot.sellRevenue 101 1 (1/1000) = 100899/1000 ∧
    ArbBot.calculate_profit 100 101 (1/1000) (1/1000) 1 =
      some (799/1001, 799/1000) ∧
    ((798 : ℚ)/1000 < 799/1001 ∧ (799 : ℚ)/1001 < 7985/10000) ∧
    ArbBot.check_arbitrage_opportunities flatFees ⟨1/2, 1, 1, "USD"⟩
        c2ob "T" = some [c2opp] := by
  refine ⟨?_, ?_, ?_, ⟨?_, ?_⟩, ?_⟩
  · norm_num [ArbBot.buyCost]
  · norm_num [ArbBot.sellRevenue]
  · with_unfolding_all decide
  · norm_num
  · norm_num
  · with_unfolding_all decide

/-- C3 (code bug): with `trade_amount = 0` the sized amount is 0, the buy
cost is 0, and the live scanner evaluates `profit / buy_cost` anyway — the
call raises ZeroDivisionError (modelled as `none`) instead of failing
closed with no opportunity. -/
theorem C3_live_division_by_zero :
    ArbBot.buyCost 100 0 (1/1000) = 0 ∧
    ArbBot.check_arbitrage_opportunities flatFees ⟨1/2, 0, 1, "USD"⟩
        c2ob "T" = none := by
  with_unfolding_all decide

/-- C4 (amended): the live scanner is deterministic in all its inputs
except the wall clock, which only enters the emitted `timestamp` field —
outputs at any two clock readings agree after erasing timestamps — and the
live and replay `calculate_profit` are numerically identical functions. -/
theorem C4_deterministic_up_to_timestamp :
    (∀ (fees : String → ℚ) (cfg : ArbBot.Config) (ob : List (String × Quote))
      (t₁ t₂ : String),
      (ArbBot.check_arbitrage_opportunities fees cfg ob t₁).map
          (List.map eraseTimestamp) =
        (ArbBot.check_arbitrage_opportunities fees cfg ob t₂).map
          (List.map eraseTimestamp)) ∧
    (∀ bp sp bf sf a : ℚ,
      ArbBot.calculate_profit bp sp bf sf a =
        Backtest.calculate_profit bp sp bf sf a) :=
  ⟨fun _ _ _ t₁ t₂ => ArbBot.scanPairs_erase t₁ t₂ _,
    fun _ _ _ _ _ => rfl⟩

/-- Witness for C4 at the end-to-end example snapshot. -/
theorem C4_witness :
    (ArbBot.check_arbitrage_opportunities flatFees ⟨1/2, 1, 1, "USD"⟩
        c2ob "t1").map (List.map eraseTimestamp) =
      (ArbBot.check_arbitrage_opportunities flatFees ⟨1/2, 1, 1, "USD"⟩
        c2ob "t2").map (List.map eraseTimestamp) :=
  C4_deterministic_up_to_timestamp.1 flatFees ⟨1/2, 1, 1, "USD"⟩ c2ob "t1" "t2"

/-- C4 counterexample: two invocations of the live scanner with identical
snapshot, fee and configuration inputs but different wall-clock readings
return lists that are not field-for-field equal (the timestamps differ). -/
theorem C4_counterexample :
    ArbBot.check_arbitrage_opportunities flatFees ⟨1/2, 1, 1, "USD"⟩
        c2ob "t1" ≠
      ArbBot.check_arbitrage_opportunities flatFees ⟨1/2, 1, 1, "USD"⟩
        c2ob "t2" := by
  with_unfolding_all decide

/-- C5: whenever the buy placement succeeds and the sell placement raises,
`execute_trade` performs exactly one cancellation attempt on the buy order,
returns False whatever that attempt's outcome, and places no further
order (the trace ends at the cancel). -/
theorem C5_sell_failure_compensation (env : ArbBot.ExecEnv) (oid : String)
    (hbuy : env.buyPlace = Except.ok oid)
    (hsell : env.sellPlace = Except.error ()) :
    ArbBot.execute_trade env =
      (false, [ArbBot.ExecEvent.placeBuy, ArbBot.ExecEvent.placeSell,
        ArbBot.ExecEvent.cancelBuy]) ∧
    (ArbBot.execute_trade env).2.count ArbBot.ExecEvent.cancelBuy = 1 := by
  have h : ArbBot.execute_trade env =
      (false, [ArbBot.ExecEvent.placeBuy, ArbBot.ExecEvent.placeSell,
        ArbBot.ExecEvent.cancelBuy]) := by
    simp only [ArbBot.execute_trade, hbuy, hsell]
  refine ⟨h, ?_⟩
  rw [h]
  rfl

/-- Witness for C5 with a failing cancellation attempt. -/
theorem C5_witness :
    ArbBot.execute_trade
        ⟨Except.ok "b1", Except.error (), Except.error (), true, true⟩ =
      (false, [ArbBot.ExecEvent.placeBuy, ArbBot.ExecEvent.placeSell,
        ArbBot.ExecEvent.cancelBuy]) ∧
    (ArbBot.execute_trade
        ⟨Except.ok "b1", Except.error (), Except.error (), true, true⟩).2.count
      ArbBot.ExecEvent.cancelBuy = 1 :=
  C5_sell_failure_compensation _ "b1" rfl rfl

/-- C6 (code bug): the sell-leg balance verification queries the
configured `trade_currency` ("USD", the quote/settlement currency), not
the base currency being sold: with every venue holding 1000 USD and zero
BTC, the gate checks venue b's "USD" balance against the BTC trade size
and proceeds to place orders. -/
theorem C6_sell_check_uses_trade_currency :
    ArbBot.processOpportunity c6fetch flatFees ⟨1/2, 1, 1, "USD"⟩
        ⟨"a", "b", 100, 101, 799/1001, 799/1000, 1, some "T"⟩ =
      (true, [ArbBot.MainEvent.balanceCheck "a" "USD" (1001/10),
        ArbBot.MainEvent.balanceCheck "b" "USD" 1,
        ArbBot.MainEvent.executeTrade "a" "b"]) := by
  with_unfolding_all decide

/-- C7 (amended): after a replay over distinct venues, the total simulated
balance equals the initial total plus the summed `profit` of the applied
trades — not the initial total minus fees: `simulate_trade` credits the
sell venue's revenue without ever debiting the bought asset, so the gross
spread gain enters the ledger on top of the fee outflow. -/
theorem C7_ledger_conservation (fees : String → ℚ) (cfg : Backtest.Config)
    (venues : List String) (initial : ℚ)
    (rows : List (String × (String → Quote)))
    (balF : Backtest.Ledger) (logF : List Opportunity)
    (hnd : venues.Nodup)
    (h : Backtest.backtest fees cfg venues initial rows = some (balF, logF)) :
    Backtest.Ledger.total venues balF =
      (venues.length : ℚ) * initial +
        (logF.map Opportunity.profit).sum := by
  unfold Backtest.backtest at h
  have hrun := Backtest.backtestRun_total hnd h
  dsimp only at hrun
  rw [Backtest.Ledger.total_const] at hrun
  simp only [List.map_nil, List.sum_nil, sub_zero] at hrun
  linarith [hrun]

/-- Witness for C7 on the concrete two-venue replay. -/
theorem C7_ledger_conservation_witness :
    c7finalTotal = some (2 * 1000 + 799/1000) := by
  rcases hres : c7result with _ | ⟨balF, logF⟩
  · have hs : c7result.isSome = true := by with_unfolding_all decide
    rw [hres] at hs
    exact absurd hs (by simp)
  · have heq : Backtest.backtest flatFees c7cfg ["a", "b"] 1000 c7rows =
        some (balF, logF) := hres
    have htot := C7_ledger_conservation flatFees c7cfg ["a", "b"] 1000
      c7rows balF logF (by decide) heq
    have h2 : c7profitSum = some ((logF.map Opportunity.profit).sum) := by
      unfold c7profitSum
      rw [hres]
      rfl
    have h3 : c7profitSum = some (799/1000) := by
      with_unfolding_all decide
    rw [h2] at h3
    have hsum := Option.some.injEq .. ▸ h3
    unfold c7finalTotal
    rw [hres]
    simp only [Option.map_some']
    rw [htot, hsum]
    norm_num

/-- C7 counterexample: on the zero-fee replay one trade with spread 1 is
applied, no fees are paid, and the final total is 2001 — the initial 2000
plus the spread — while the claimed "initial minus total fees" value is
2000. -/
theorem C7_counterexample :
    c7zFinalTotal = some 2001 ∧
    c7zFeesTotal = some 0 ∧
    (2001 : ℚ) ≠ 2 * 1000 - 0 := by
  refine ⟨?_, ?_, by norm_num⟩
  · with_unfolding_all decide
  · with_unfolding_all decide

/-- C8 (code bug): with `timeout = 86400` seconds and an order that stays
open, the `monitor_order` loop never terminates — its guard compares the
`timedelta.seconds` field, which wraps modulo 86400, so it never becomes
false: after any number of iterations the loop is still running instead of
having returned False at the timeout. -/
theorem C8_monitor_nonterminating_at_day_timeout :
    ∀ fuel : Nat,
      ArbBot.monitorFuel (fun _ => ArbBot.OrderStatus.opened) 86400 fuel 0 =
        none :=
  fun fuel => ArbBot.monitorFuel_allOpen_day fuel 0

/-- C9: holding fees in [0, 1] and a non-negative amount fixed, the profit
returned by `calculate_profit` does not decrease when the spread widens
(sell price raised, buy price lowered). -/
theorem C9_profit_monotone (bp₁ bp₂ sp₁ sp₂ bf sf a pp₁ p₁ pp₂ p₂ : ℚ)
    (hbf0 : 0 ≤ bf) (hbf1 : bf ≤ 1) (hsf0 : 0 ≤ sf) (hsf1 : sf ≤ 1)
    (ha : 0 ≤ a) (hbp : bp₂ ≤ bp₁) (hsp : sp₁ ≤ sp₂)
    (h₁ : ArbBot.calculate_profit bp₁ sp₁ bf sf a = some (pp₁, p₁))
    (h₂ : ArbBot.calculate_profit bp₂ sp₂ bf sf a = some (pp₂, p₂)) :
    p₁ ≤ p₂ := by
  obtain ⟨-, hp₁, -⟩ := ArbBot.calculate_profit_eq_some_live h₁
  obtain ⟨-, hp₂, -⟩ := ArbBot.calculate_profit_eq_some_live h₂
  rw [hp₁, hp₂]
  simp only [ArbBot.buyCost, ArbBot.sellRevenue]
  nlinarith [mul_nonneg (mul_nonneg (sub_nonneg.mpr hsp) ha)
      (sub_nonneg.mpr hsf1),
    mul_nonneg (mul_nonneg (sub_nonneg.mpr hbp) ha)
      (by linarith : (0 : ℚ) ≤ 1 + bf)]

/-- Witness for C9: widening the spread from (100, 101) to (99, 102) with
zero fees and unit amount raises the profit from 1 to 3. -/
theorem C9_witness : (1 : ℚ) ≤ 3 :=
  C9_profit_monotone 100 99 101 102 0 0 1 1 1 (100/33) 3
    (le_refl 0) zero_le_one (le_refl 0) zero_le_one zero_le_one
    (by norm_num) (by norm_num)
    (by with_unfolding_all decide) (by with_unfolding_all decide)

/-- C10: `simulate_trade` with sufficient buy-venue USD debits exactly the
fee-inclusive cost from the buy venue's USD, credits exactly the fee-net
revenue to the sell venue's USD, leaves every other venue untouched and
every venue's BTC unchanged; with insufficient USD it returns the ledger
unchanged with False. -/
theorem C10_simulate_frame (bal : Backtest.Ledger) (o : Opportunity)
    (fees : String → ℚ) (hne : o.buy_exchange ≠ o.sell_exchange) :
    (o.amount * o.buy_price * (1 + fees o.buy_exchange) ≤
        (bal o.buy_exchange).usd →
      (Backtest.simulate_trade bal o fees).2 = true ∧
      ((Backtest.simulate_trade bal o fees).1 o.buy_exchange).usd =
        (bal o.buy_exchange).usd -
          o.amount * o.buy_price * (1 + fees o.buy_exchange) ∧
      ((Backtest.simulate_trade bal o fees).1 o.sell_exchange).usd =
        (bal o.sell_exchange).usd +
          o.amount * o.sell_price * (1 - fees o.sell_exchange) ∧
      (∀ v, v ≠ o.buy_exchange → v ≠ o.sell_exchange →
        (Backtest.simulate_trade bal o fees).1 v = bal v) ∧
      (∀ v, ((Backtest.simulate_trade bal o fees).1 v).btc = (bal v).btc)) ∧
    (¬ o.amount * o.buy_price * (1 + fees o.buy_exchange) ≤
        (bal o.buy_exchange).usd →
      Backtest.simulate_trade bal o fees = (bal, false)) := by
  constructor
  · intro hsuf
    have hst : Backtest.simulate_trade bal o fees =
        (Backtest.Ledger.addUsd
          (Backtest.Ledger.subUsd bal o.buy_exchange
            (o.amount * o.buy_price * (1 + fees o.buy_exchange)))
          o.sell_exchange
          (o.amount * o.sell_price * (1 - fees o.sell_exchange)), true) := by
      simp only [Backtest.simulate_trade]
      rw [if_pos hsuf]
    refine ⟨by rw [hst], ?_, ?_, ?_, ?_⟩
    · rw [hst]
      dsimp only [Backtest.Ledger.addUsd, Backtest.Ledger.subUsd]
      rw [if_neg hne, if_pos rfl]
    · rw [hst]
      dsimp only [Backtest.Ledger.addUsd, Backtest.Ledger.subUsd]
      rw [if_pos rfl, if_neg (Ne.symm hne)]
    · intro v hvb hvs
      rw [hst]
      dsimp only [Backtest.Ledger.addUsd, Backtest.Ledger.subUsd]
      rw [if_neg hvs, if_neg hvb]
    · intro v
      rw [hst]
      dsimp only [Backtest.Ledger.addUsd, Backtest.Ledger.subUsd]
      by_cases h1 : v = o.sell_exchange
      · rw [if_pos h1]
        dsimp only
        by_cases h2 : v = o.buy_exchange
        · rw [if_pos h2]
        · rw [if_neg h2]
      · rw [if_neg h1]
        by_cases h2 : v = o.buy_exchange
        · rw [if_pos h2]
        · rw [if_neg h2]
  · intro hins
    simp only [Backtest.simulate_trade]
    rw [if_neg hins]

/-- Witness for C10 on a concrete ledger and opportunity. -/
theorem C10_witness :
    (Backtest.simulate_trade c10bal c10opp flatFees).2 = true ∧
    ((Backtest.simulate_trade c10bal c10opp flatFees).1 "a").usd =
      (c10bal "a").usd -
        c10opp.amount * c10opp.buy_price * (1 + flatFees "a") ∧
    ((Backtest.simulate_trade c10bal c10opp flatFees).1 "b").btc =
      (c10bal "b").btc := by
  have h := (C10_simulate_frame c10bal c10opp flatFees
    (by with_unfolding_all decide)).1 (by with_unfolding_all decide)
  exact ⟨h.1, h.2.1, h.2.2.2.2 "b"⟩

end Crypto
